import Mathlib

/-!
Verification of the LiteX Lattice IceStorm toolchain driver
(`litex/build/lattice/icestorm.py`).

The Python module is shallowly embedded below: each pure helper becomes a
Lean function over `String`/`List`; Python's `float` periods are modelled as
exact rationals (`Rat`); the stateful facade methods (`build`,
`add_period_constraint`) are modelled with explicit state passing, where a
raised Python exception becomes an `Except.error` result paired with the
state at the raise point (Python does not roll back mutations on raise).
File writes are modelled by returning the written content; external
collaborators (elaboration frontend, filesystem, subprocess) are modelled as
parameters of the build environment.
-/

namespace IceStorm

/-! Section: Generic string/list helpers used by the embedding -/

/-- Concatenation of a list of strings (Python `"".join` / repeated `+=`). -/
def strConcat : List String → String
  | [] => ""
  | s :: rest => s ++ strConcat rest

/-- Python `sep.join(parts)`. -/
def strIntercalate (sep : String) : List String → String
  | [] => ""
  | [s] => s
  | s :: r :: rest => s ++ sep ++ strIntercalate sep (r :: rest)

/-- Python `str.split(sep)` for a single-character separator, on char lists. -/
def splitOnChar (c : Char) : List Char → List (List Char)
  | [] => [[]]
  | x :: xs =>
    match splitOnChar c xs with
    | [] => [[]]
    | y :: ys => if x = c then [] :: y :: ys else (x :: y) :: ys

/-- Inverse of `splitOnChar`: re-join the fields with the separator. -/
def joinParts (c : Char) : List (List Char) → List Char
  | [] => []
  | [x] => x
  | x :: y :: rest => x ++ c :: joinParts c (y :: rest)

/-- Boolean test: `pat` occurs at the head of `l`. -/
def isPrefixList : List Char → List Char → Bool
  | [], _ => true
  | _ :: _, [] => false
  | a :: as, b :: bs => a = b && isPrefixList as bs

/-- Boolean test: `pat` occurs somewhere inside `l` (Python `pat in s`). -/
def containsSub (pat : List Char) : List Char → Bool
  | [] => pat.isEmpty
  | c :: rest => isPrefixList pat (c :: rest) || containsSub pat rest

/-- Substring test `strContains s pat`: the string `pat` occurs as a substring of `s`. -/
def strContains (s pat : String) : Bool := containsSub pat.data s.data

/-- Character-membership test: the character `c` occurs in the string `s`. -/
def charIn (c : Char) (s : String) : Bool := containsSub [c] s.data

/-- Python `dict` read: first (unique) binding of the key, if any. -/
def dictGet? {κ ν : Type} [DecidableEq κ] (k : κ) : List (κ × ν) → Option ν
  | [] => none
  | (k', v) :: rest => if k' = k then some v else dictGet? k rest

/-- Python `dict` assignment `d[k] = v`: updates in place when the key is
present (keeping its insertion position), otherwise appends. -/
def dictInsert {κ ν : Type} [DecidableEq κ] (k : κ) (v : ν) :
    List (κ × ν) → List (κ × ν)
  | [] => [(k, v)]
  | (k', v') :: rest =>
    if k' = k then (k, v) :: rest else (k', v') :: dictInsert k v rest

/-- Python `set.add`: add an element if absent. -/
def setAdd (a : String) (s : List String) : List String :=
  if a ∈ s then s else s ++ [a]

/-- True iff an `Except` value is an error (a raised Python exception). -/
def isErr {ε α : Type} : Except ε α → Bool
  | .error _ => true
  | .ok _ => false

/-! Section: IO constraints: `_build_pcf(named_sc, named_pc)` -/

/-- One entry of `named_sc`: a Python tuple `(sig, pins, others, resname)`. -/
structure SigConstraint where
  sig : String
  pins : List String
  others : List String
  resname : String
  deriving DecidableEq

/-- Inner loop `for bit, pin in enumerate(pins): r += "set_io {sig}[{bit}] {pin}\n"`
of `_build_pcf`, carrying the running bit index. -/
def pcfBits (sig : String) (bit : Nat) : List String → String
  | [] => ""
  | pin :: rest =>
    ("set_io " ++ sig ++ "[" ++ toString bit ++ "] " ++ pin ++ "\n")
      ++ pcfBits sig (bit + 1) rest

/-- Outer loop of `_build_pcf` over `named_sc`, accumulating `r`.  A
single-pin (or empty) constraint takes the `else` branch, which indexes
`pins[0]`; on an empty pin list that raises `IndexError`. -/
def pcfLoop : List SigConstraint → String → Except String String
  | [], r => .ok r
  | sc :: rest, r =>
    if sc.pins.length > 1 then
      pcfLoop rest (r ++ pcfBits sc.sig 0 sc.pins)
    else
      match sc.pins with
      | [] => .error "IndexError: list index out of range"
      | pin :: _ => pcfLoop rest (r ++ ("set_io " ++ sc.sig ++ " " ++ pin ++ "\n"))

/-- Embedding of `_build_pcf(named_sc, named_pc)`: pin constraint lines, then — only when
`named_pc` is non-empty (Python truthiness of a list) — a newline and the raw
platform constraints joined by blank lines. -/
def build_pcf (named_sc : List SigConstraint) (named_pc : List String) :
    Except String String :=
  match pcfLoop named_sc "" with
  | .error e => .error e
  | .ok r =>
    .ok (if named_pc.isEmpty then r else r ++ ("\n" ++ strIntercalate "\n\n" named_pc))

/-! Section: Timing constraints: `_build_pre_pack(vns, clocks)` -/

/-- Embedding of `_build_pre_pack(vns, clocks)`.  Clock signals are identified by a `Nat`
id; `vns` models `vns.get_name`; periods are exact rationals standing for the
Python floats; `numStr` models Python's rendering of the float `1e3/period`
into the formatted string. -/
def build_pre_pack (numStr : Rat → String) (vns : Nat → String)
    (clocks : List (Nat × Rat)) : String :=
  clocks.foldl
    (fun r cp =>
      r ++ ("ctx.addClock(\"" ++ vns cp.1 ++ "\", " ++ numStr (1000 / cp.2) ++ ")\n"))
    ""

/-! Section: Yosys script: `_yosys_import_sources(platform)` -/

/-- The language rewrite inside `_yosys_import_sources`: yosys has no
`read_systemverilog`, so that one name is replaced by `verilog -sv`. -/
def effLang (language : String) : String :=
  if language = "systemverilog" then "verilog -sv" else language

/-- Embedding of `_yosys_import_sources(platform)`: builds the accumulated `-I` include
flags, then one `read_<language>` line per `(filename, language, library)`
source, joined by newlines. -/
def yosys_import_sources (verilog_include_paths : List String)
    (sources : List (String × String × String)) : String :=
  let includes := verilog_include_paths.foldl (fun acc path => acc ++ (" -I" ++ path)) ""
  let reads := sources.foldl
    (fun reads s =>
      reads ++ ["read_" ++ effLang s.2.1 ++ includes ++ " " ++ s.1])
    []
  strIntercalate "\n" reads

/-! Section: Device parsing: `parse_device(device)` -/

/-- The `packages` dict literal of `parse_device`, in source order. -/
def packagesTable : List (String × List String) :=
  [("lp384", ["qn32", "cm36", "cm49"]),
   ("lp1k", ["swg16tr", "cm36", "cm49", "cm81", "cb81", "qn84", "cm121", "cb121"]),
   ("hx1k", ["vq100", "cb132", "tq144"]),
   ("lp8k", ["cm81", "cm81:4k", "cm121", "cm121:4k", "cm225", "cm225:4k"]),
   ("hx8k", ["bg121", "bg121:4k", "cb132", "cb132:4k", "cm121",
             "cm121:4k", "cm225", "cm225:4k", "cm81", "cm81:4k",
             "ct256", "tq144:4k"]),
   ("up3k", ["sg48", "uwg30"]),
   ("up5k", ["sg48", "uwg30"]),
   ("u4k", ["sg48"])]

/-- Embedding of `parse_device(device)`.  The tuple unpacking of `device.split("-")`
raises `ValueError` unless the split yields exactly three fields; then the
family, architecture and package checks run in source order, each raising
`ValueError` on failure. -/
def parse_device (device : String) : Except String (String × String × String) :=
  match splitOnChar '-' device.data with
  | [f, a, p] =>
    let family := String.mk f
    let architecture := String.mk a
    let package := String.mk p
    if (["ice40"] : List String).contains family = false then
      .error ("Unknown device family " ++ family)
    else
      match List.lookup architecture packagesTable with
      | none => .error ("Invalid device architecture " ++ architecture)
      | some pkgs =>
        if pkgs.contains package = false then
          .error ("Invalid device package " ++ package)
        else
          .ok (family, architecture, package)
  | _ => .error "ValueError: not exactly three fields"

/-! Section: Build script: `_build_script(...)` -/

/-- Named placeholders appearing in the build template strings. -/
inductive TField where
  | build_name
  | architecture
  | package
  | timefailarg
  | ignoreloops
  | fail_stmt
  | seed
  deriving DecidableEq

/-- One piece of a Python format string: literal text or a `{field}`. -/
inductive Item where
  | lit (s : String)
  | field (f : TField)
  deriving DecidableEq

/-- The keyword arguments passed to `.format(...)` in `_build_script`. -/
structure FormatEnv where
  build_name : String
  architecture : String
  package : String
  timefailarg : String
  ignoreloops : String
  fail_stmt : String
  seed : String

/-- Value substituted for one placeholder. -/
def fieldVal (env : FormatEnv) : TField → String
  | .build_name => env.build_name
  | .architecture => env.architecture
  | .package => env.package
  | .timefailarg => env.timefailarg
  | .ignoreloops => env.ignoreloops
  | .fail_stmt => env.fail_stmt
  | .seed => env.seed

/-- Value of one format-string piece. -/
def itemVal (env : FormatEnv) : Item → String
  | .lit s => s
  | .field f => fieldVal env f

/-- Python `s.format(**env)` on a parsed format string. -/
def formatLine (env : FormatEnv) (l : List Item) : String :=
  l.foldl (fun acc it => acc ++ itemVal env it) ""

/-- The source's `_build_template`, with each line parsed into literals and placeholders
(the backslash line continuation of the second line leaves five spaces). -/
def build_template : List (List Item) :=
  [[.lit "yosys -l ", .field .build_name, .lit ".rpt ", .field .build_name, .lit ".ys"],
   [.lit "nextpnr-ice40 --json ", .field .build_name, .lit ".json --pcf ",
    .field .build_name, .lit ".pcf --asc ", .field .build_name,
    .lit ".txt     --pre-pack ", .field .build_name, .lit "_pre_pack.py --",
    .field .architecture, .lit " --package ", .field .package, .lit " ",
    .field .timefailarg, .lit " ", .field .ignoreloops, .lit " --seed ",
    .field .seed],
   [.lit "icepack -s ", .field .build_name, .lit ".txt ", .field .build_name,
    .lit ".bin"]]

/-- The two OS branches of `_build_script` (`sys.platform` test). -/
inductive OSKind where
  | posix
  | windows
  deriving DecidableEq

/-- Value `script_ext` of `_build_script`. -/
def scriptExtOf : OSKind → String
  | .windows => ".bat"
  | .posix => ".sh"

/-- Initial `script_contents` of `_build_script` (`rev` models the value of
`tools.get_litex_git_revision()`). -/
def scriptHeaderOf (osk : OSKind) (rev : String) : String :=
  match osk with
  | .windows => "@echo off\nrem Autogenerated by LiteX / git: " ++ rev ++ "\n\n"
  | .posix => "# Autogenerated by LiteX / git: " ++ rev ++ "\nset -e\n"

/-- Value `fail_stmt` of `_build_script`. -/
def failStmtOf : OSKind → String
  | .windows => " || exit /b"
  | .posix => ""

/-- The keyword arguments of the `.format(...)` call in `_build_script`. -/
def scriptSubst (osk : OSKind) (build_name architecture package : String)
    (timingstrict ignoreloops : Bool) (seed : Int) : FormatEnv :=
  { build_name := build_name
    architecture := architecture
    package := package
    timefailarg := if timingstrict then "" else "--timing-allow-fail"
    ignoreloops := if ignoreloops then "--ignore-loops" else ""
    fail_stmt := failStmtOf osk
    seed := toString seed }

/-- Embedding of `_build_script(build_template, build_name, architecture, package,
timingstrict, ignoreloops, seed)`: returns the written script's
`(filename, contents)` pair (the file write is modelled by the contents
component).  Each template line gets `"{fail_stmt}\n"` appended before
formatting. -/
def build_script (osk : OSKind) (rev : String) (tmpl : List (List Item))
    (build_name architecture package : String)
    (timingstrict ignoreloops : Bool) (seed : Int) : String × String :=
  let env := scriptSubst osk build_name architecture package timingstrict ignoreloops seed
  ("build_" ++ build_name ++ scriptExtOf osk,
   tmpl.foldl
     (fun acc s => acc ++ formatLine env (s ++ [Item.field .fail_stmt, Item.lit "\n"]))
     (scriptHeaderOf osk rev))

/-! Section: Toolchain runner: `_run_script(script)` -/

/-- Embedding of `_run_script`: the two `which` lookups are modelled by the two `Bool`
parameters, the `subprocess.call` exit status by `exitCode`. -/
def run_script (yosysFound nextpnrFound : Bool) (exitCode : Int) :
    Except String Unit :=
  if yosysFound = false || nextpnrFound = false then
    .error "Unable to find Yosys/Nextpnr toolchain"
  else if exitCode ≠ 0 then
    .error "Error occured during Yosys/Nextpnr's script execution."
  else
    .ok ()

/-! Section: The facade's clock-constraint state: `add_period_constraint` -/

/-- The mutable state touched by `add_period_constraint`: each signal's
attribute set (`clk.attr`, keyed by a `Nat` signal id) and the facade's
`self.clocks` dict. -/
structure BuildState where
  attrs : Nat → List String
  clocks : List (Nat × Rat)

/-- Embedding of `LatticeIceStormToolchain.add_period_constraint(self, platform, clk,
period)`.  The result pairs the outcome with the state at return/raise time:
`clk.attr.add("keep")` has already happened when the conflict error is
raised. -/
def add_period_constraint (st : BuildState) (clk : Nat) (period : Rat) :
    Except String Unit × BuildState :=
  let st1 : BuildState :=
    { st with attrs := fun s => if s = clk then setAdd "keep" (st.attrs s) else st.attrs s }
  match dictGet? clk st1.clocks with
  | some p =>
    if period ≠ p then
      (.error "Clock already constrained", st1)
    else
      (.ok (), { st1 with clocks := dictInsert clk period st1.clocks })
  | none => (.ok (), { st1 with clocks := dictInsert clk period st1.clocks })

/-! Section: The facade's `build`: working-directory discipline -/

/-- A computation over the process working directory that can raise: given
the current directory it yields an outcome and the directory at return/raise
time (a raised Python exception does not restore the directory). -/
def StE (α : Type) : Type := String → Except String α × String

/-- Return a value, directory unchanged. -/
def stPure {α : Type} (a : α) : StE α := fun s => (.ok a, s)

/-- Sequencing: an error stops the computation, keeping its directory. -/
def stBind {α β : Type} (m : StE α) (f : α → StE β) : StE β := fun s =>
  match m s with
  | (.ok a, s') => f a s'
  | (.error e, s') => (.error e, s')

/-- Step `os.getcwd()`. -/
def stGetCwd : StE String := fun s => (.ok s, s)

/-- Step `os.chdir(d)`. -/
def stChdir (d : String) : StE Unit := fun _ => (.ok (), d)

/-- Run an exception-throwing step that does not touch the directory. -/
def stLift {α : Type} (r : Except String α) : StE α := fun s => (r, s)

/-- Everything `LatticeIceStormToolchain.build` consumes: its keyword
arguments, the platform data handed over by the elaboration collaborator,
the facade's clock map, and the modelled environment of the toolchain runner. -/
structure BuildEnv where
  build_dir : String
  build_name : String
  device : String
  run : Bool
  timingstrict : Bool
  ignoreloops : Bool
  seed : Int
  osk : OSKind
  rev : String
  yosysFound : Bool
  nextpnrFound : Bool
  scriptExit : Int
  named_sc : List SigConstraint
  named_pc : List String
  vns : Nat → String
  numStr : Rat → String
  clocks : List (Nat × Rat)
  verilog_include_paths : List String
  sources : List (String × String × String)
  build_template : List (List Item)

/-- Embedding of `LatticeIceStormToolchain.build`: capture `cwd`, enter the build
directory, generate the constraint/synthesis files, parse the device, build
the script, optionally run it, and change back to `cwd` at the end of the
happy path.  Elaboration steps that cannot raise in this model are kept as
pure file-content computations. -/
def build (env : BuildEnv) : StE Unit :=
  stBind stGetCwd fun cwd =>
  stBind (stChdir env.build_dir) fun _ =>
  stBind (stLift ((build_pcf env.named_sc env.named_pc).map fun _ => ())) fun _ =>
  let _ := build_pre_pack env.numStr env.vns env.clocks
  let _ := yosys_import_sources env.verilog_include_paths env.sources
  stBind (stLift (parse_device env.device)) fun fap =>
  let _ := build_script env.osk env.rev env.build_template env.build_name
    fap.2.1 fap.2.2 env.timingstrict env.ignoreloops env.seed
  stBind (if env.run then stLift (run_script env.yosysFound env.nextpnrFound env.scriptExit)
          else stPure ()) fun _ =>
  stBind (stChdir cwd) fun _ =>
  stPure ()

/-! Section: Specification-side definitions -/

/-- The spec's validity predicate for a device triple: known family, known
architecture, package in that architecture's list. -/
def validTripleB (f a p : String) : Bool :=
  (["ice40"] : List String).contains f &&
    match List.lookup a packagesTable with
    | some pkgs => pkgs.contains p
    | none => false

/-- All valid `(family, architecture, package)` triples, enumerated from the
package table. -/
def allValidTriples : List (String × String × String) :=
  packagesTable.flatMap fun kv => kv.2.map fun p => ("ice40", kv.1, p)

/-- Expected `.pcf` text for one signal constraint: `N` indexed lines for a
multi-bit signal, one unindexed line for a single pin. -/
def pcfBlockSpec (sc : SigConstraint) : String :=
  if sc.pins.length > 1 then
    strConcat (sc.pins.enum.map fun bp =>
      "set_io " ++ sc.sig ++ "[" ++ toString bp.1 ++ "] " ++ bp.2 ++ "\n")
  else
    match sc.pins with
    | [] => ""
    | pin :: _ => "set_io " ++ sc.sig ++ " " ++ pin ++ "\n"

/-- Concrete build environment exercising a device-validation failure:
`"ice40"` does not split into three fields, so `parse_device` raises. -/
def c1Env : BuildEnv :=
  { build_dir := "build", build_name := "top", device := "ice40", run := false,
    timingstrict := false, ignoreloops := false, seed := 1, osk := .posix,
    rev := "", yosysFound := true, nextpnrFound := true, scriptExit := 0,
    named_sc := [], named_pc := [], vns := fun _ => "clk", numStr := fun _ => "",
    clocks := [], verilog_include_paths := [], sources := [],
    build_template := build_template }

/-- Concrete build environment for a successful `run=False` build. -/
def c1EnvOk : BuildEnv :=
  { build_dir := "build", build_name := "top", device := "ice40-up5k-sg48",
    run := false, timingstrict := false, ignoreloops := false, seed := 1,
    osk := .posix, rev := "", yosysFound := true, nextpnrFound := true,
    scriptExit := 0, named_sc := [], named_pc := [], vns := fun _ => "clk",
    numStr := fun _ => "", clocks := [], verilog_include_paths := [],
    sources := [], build_template := build_template }

/-- Boolean check that a `parse_device` result is `ok` at a given triple
(used because `Except` carries no `DecidableEq` instance here). -/
def parseOkAt (r : Except String (String × String × String))
    (t : String × String × String) : Bool :=
  match r with
  | .ok t' => t' = t
  | .error _ => false

/-! Section: Helper lemmas -/

lemma strConcat_cons (s : String) (l : List String) :
    strConcat (s :: l) = s ++ strConcat l := rfl

lemma strConcat_append : ∀ l₁ l₂ : List String,
    strConcat (l₁ ++ l₂) = strConcat l₁ ++ strConcat l₂ := by
  intro l₁ l₂
  induction l₁ with
  | nil => simp [strConcat, String.empty_append]
  | cons x xs ih => simp [strConcat, ih, String.append_assoc]

lemma foldl_str_append {α : Type} (f : α → String) : ∀ (l : List α) (r : String),
    l.foldl (fun acc x => acc ++ f x) r = r ++ strConcat (l.map f) := by
  intro l
  induction l with
  | nil => intro r; simp [strConcat, String.append_empty]
  | cons x xs ih =>
    intro r
    simp only [List.foldl_cons, List.map_cons, strConcat_cons, ih,
      String.append_assoc]

lemma foldl_list_append {α β : Type} (f : α → β) : ∀ (l : List α) (init : List β),
    l.foldl (fun acc x => acc ++ [f x]) init = init ++ l.map f := by
  intro l
  induction l with
  | nil => intro init; simp
  | cons x xs ih => intro init; simp [ih]

/-! Section: Pin/IO constraint lemmas -/

lemma pcfBits_eq (sig : String) : ∀ (pins : List String) (bit : Nat),
    pcfBits sig bit pins
      = strConcat ((List.enumFrom bit pins).map fun bp =>
          "set_io " ++ sig ++ "[" ++ toString bp.1 ++ "] " ++ bp.2 ++ "\n") := by
  intro pins
  induction pins with
  | nil => intro bit; rfl
  | cons pin rest ih =>
    intro bit
    simp only [pcfBits, List.enumFrom, List.map_cons, strConcat_cons, ih]

lemma pcfLoop_ok : ∀ (scs : List SigConstraint) (r : String),
    (∀ sc ∈ scs, sc.pins ≠ []) →
    pcfLoop scs r = .ok (r ++ strConcat (scs.map pcfBlockSpec)) := by
  intro scs
  induction scs with
  | nil => intro r _; simp [pcfLoop, strConcat, String.append_empty]
  | cons sc rest ih =>
    intro r h
    have hsc : sc.pins ≠ [] := h sc (List.mem_cons_self sc rest)
    have hrest : ∀ sc' ∈ rest, sc'.pins ≠ [] :=
      fun sc' hm => h sc' (List.mem_cons_of_mem sc hm)
    rw [pcfLoop]
    by_cases hl : sc.pins.length > 1
    · rw [if_pos hl, ih _ hrest]
      simp only [List.map_cons, strConcat_cons, pcfBlockSpec, if_pos hl,
        List.enum, pcfBits_eq, String.append_assoc]
    · rw [if_neg hl]
      rcases hp : sc.pins with _ | ⟨pin, more⟩
      · exact absurd hp hsc
      · show pcfLoop rest (r ++ ("set_io " ++ sc.sig ++ " " ++ pin ++ "\n")) = _
        rw [ih _ hrest]
        have hb : pcfBlockSpec sc = "set_io " ++ sc.sig ++ " " ++ pin ++ "\n" := by
          rw [pcfBlockSpec, if_neg hl, hp]
        rw [List.map_cons, strConcat_cons, hb]
        simp [String.append_assoc]

lemma pcfLoop_err : ∀ (scs : List SigConstraint) (r : String),
    (∃ sc ∈ scs, sc.pins = []) →
    isErr (pcfLoop scs r) = true := by
  intro scs
  induction scs with
  | nil => intro r h; simp at h
  | cons sc rest ih =>
    intro r h
    rw [pcfLoop]
    by_cases hl : sc.pins.length > 1
    · rw [if_pos hl]
      rcases h with ⟨sc', hm, hemp⟩
      rcases List.mem_cons.mp hm with heq | hm'
      · subst heq; rw [hemp] at hl; simp at hl
      · exact ih _ ⟨sc', hm', hemp⟩
    · rw [if_neg hl]
      rcases hp : sc.pins with _ | ⟨pin, more⟩
      · rfl
      · rcases h with ⟨sc', hm, hemp⟩
        rcases List.mem_cons.mp hm with heq | hm'
        · subst heq; rw [hemp] at hp; cases hp
        · exact ih _ ⟨sc', hm', hemp⟩

/-- C4: for every ordered sequence of signal constraints with at least one
pin each, `_build_pcf` emits, per multi-pin signal, exactly one
`set_io name[bit] pin` line per pin with bit indices `0..N-1` in input
order, per single-pin signal exactly one unindexed `set_io name pin` line,
and appends the raw platform constraints verbatim after a blank line only
when that sequence is non-empty. -/
theorem build_pcf_emission (named_sc : List SigConstraint) (named_pc : List String)
    (h : ∀ sc ∈ named_sc, sc.pins ≠ []) :
    build_pcf named_sc named_pc
      = .ok (strConcat (named_sc.map pcfBlockSpec)
          ++ if named_pc.isEmpty then "" else "\n" ++ strIntercalate "\n\n" named_pc) := by
  rw [build_pcf, pcfLoop_ok named_sc "" h, String.empty_append]
  by_cases hpc : named_pc.isEmpty
  · simp [hpc, String.append_empty]
  · simp [hpc]

/-- C4 witness: a single-pin signal, a two-pin signal and one raw platform
constraint produce exactly the expected `.pcf` text. -/
theorem build_pcf_emission_witness :
    build_pcf
      [{ sig := "led", pins := ["A1"], others := [], resname := "led" },
       { sig := "data", pins := ["B1", "B2"], others := [], resname := "data" }]
      ["set_frequency clk 100"]
      = .ok "set_io led A1\nset_io data[0] B1\nset_io data[1] B2\n\nset_frequency clk 100" := by
  have h := build_pcf_emission
    [{ sig := "led", pins := ["A1"], others := [], resname := "led" },
     { sig := "data", pins := ["B1", "B2"], others := [], resname := "data" }]
    ["set_frequency clk 100"] (by decide)
  rw [h]
  exact congrArg Except.ok (by decide)

/-- C9: `_build_pcf` is partial — it fails (the unguarded `pins[0]` raises)
as soon as some signal constraint has an empty pin list, and it is total
exactly under the precondition that every signal constraint has at least one
pin. -/
theorem build_pcf_partiality (named_sc : List SigConstraint) (named_pc : List String) :
    ((∃ sc ∈ named_sc, sc.pins = []) → isErr (build_pcf named_sc named_pc) = true)
    ∧ ((∀ sc ∈ named_sc, sc.pins ≠ []) → isErr (build_pcf named_sc named_pc) = false) := by
  constructor
  · intro h
    rw [build_pcf]
    have herr := pcfLoop_err named_sc "" h
    rcases hres : pcfLoop named_sc "" with e | r
    · rfl
    · rw [hres] at herr; simp [isErr] at herr
  · intro h
    rw [build_pcf, pcfLoop_ok named_sc "" h]
    rfl

/-- C9 witness: a signal bound to zero pins makes the emitter fail, while
the same input without it succeeds. -/
theorem build_pcf_partiality_witness :
    isErr (build_pcf [{ sig := "x", pins := [], others := [], resname := "x" }] []) = true
    ∧ isErr (build_pcf [{ sig := "led", pins := ["A1"], others := [], resname := "led" }] []) = false :=
  ⟨(build_pcf_partiality [{ sig := "x", pins := [], others := [], resname := "x" }] []).1
      ⟨{ sig := "x", pins := [], others := [], resname := "x" }, by decide⟩,
   (build_pcf_partiality [{ sig := "led", pins := ["A1"], others := [], resname := "led" }] []).2
      (by decide)⟩

/-! Section: Clock map (Python dict) lemmas -/

lemma dictGet_dictInsert_self {κ ν : Type} [DecidableEq κ] (k : κ) (v : ν) :
    ∀ l : List (κ × ν), dictGet? k (dictInsert k v l) = some v := by
  intro l
  induction l with
  | nil => simp [dictInsert, dictGet?]
  | cons kv rest ih =>
    rcases kv with ⟨k', v'⟩
    rw [dictInsert]
    by_cases hk : k' = k
    · rw [if_pos hk, dictGet?, if_pos rfl]
    · rw [if_neg hk, dictGet?, if_neg hk, ih]

lemma dictInsert_of_get {κ ν : Type} [DecidableEq κ] (k : κ) (v : ν) :
    ∀ l : List (κ × ν), dictGet? k l = some v → dictInsert k v l = l := by
  intro l
  induction l with
  | nil => intro h; simp [dictGet?] at h
  | cons kv rest ih =>
    rcases kv with ⟨k', v'⟩
    intro h
    rw [dictGet?] at h
    rw [dictInsert]
    by_cases hk : k' = k
    · rw [if_pos hk] at h
      rw [if_pos hk]
      injection h with hv
      rw [hk, hv]
    · rw [if_neg hk] at h
      rw [if_neg hk, ih h]

lemma setAdd_mem_self (a : String) (s : List String) : a ∈ setAdd a s := by
  rw [setAdd]
  by_cases h : a ∈ s
  · rwa [if_pos h]
  · rw [if_neg h]
    exact List.mem_append_right s (List.mem_singleton.mpr rfl)

lemma add_period_ok_get (st : BuildState) (clk : Nat) (p : Rat)
    (h : (add_period_constraint st clk p).1 = .ok ()) :
    dictGet? clk (add_period_constraint st clk p).2.clocks = some p := by
  rw [add_period_constraint] at h ⊢
  rcases hg : dictGet? clk st.clocks with _ | p'
  · simp only [hg]
    exact dictGet_dictInsert_self clk p st.clocks
  · simp only [hg] at h ⊢
    by_cases hne : p ≠ p'
    · rw [if_pos hne] at h; cases h
    · rw [if_neg hne] at h ⊢
      exact dictGet_dictInsert_self clk p st.clocks

/-- C3: `add_period_constraint` is idempotent for an equal period and atomic
on conflict: after a successful call recording period `p` for `clk`, calling
again with `p` succeeds and leaves the clock map unchanged, while calling
with any `q ≠ p` fails and also leaves the clock map (hence the stored
period) unchanged. -/
theorem add_period_constraint_spec (st : BuildState) (clk : Nat) (p : Rat)
    (h : (add_period_constraint st clk p).1 = .ok ()) :
    (dictGet? clk (add_period_constraint st clk p).2.clocks = some p)
    ∧ ((add_period_constraint (add_period_constraint st clk p).2 clk p).1 = .ok ()
       ∧ (add_period_constraint (add_period_constraint st clk p).2 clk p).2.clocks
           = (add_period_constraint st clk p).2.clocks)
    ∧ (∀ q : Rat, q ≠ p →
       isErr (add_period_constraint (add_period_constraint st clk p).2 clk q).1 = true
       ∧ (add_period_constraint (add_period_constraint st clk p).2 clk q).2.clocks
           = (add_period_constraint st clk p).2.clocks) := by
  have hget := add_period_ok_get st clk p h
  refine ⟨hget, ?_, ?_⟩
  · rw [add_period_constraint]
    simp only [hget, ne_eq, not_true_eq_false, if_neg, ite_false]
    constructor
    · simp
    · exact dictInsert_of_get clk p _ hget
  · intro q hq
    rw [add_period_constraint]
    simp only [hget]
    rw [if_pos hq]
    exact ⟨rfl, rfl⟩

/-- C3 witness: constraining clock `0` to period `10`, re-constraining to
`10` succeeds without change, and re-constraining to `20` fails without
change. -/
theorem add_period_constraint_spec_witness :
    (dictGet? 0 (add_period_constraint ⟨fun _ => [], []⟩ 0 10).2.clocks = some 10)
    ∧ ((add_period_constraint (add_period_constraint ⟨fun _ => [], []⟩ 0 10).2 0 10).1 = .ok ()
       ∧ (add_period_constraint (add_period_constraint ⟨fun _ => [], []⟩ 0 10).2 0 10).2.clocks
           = (add_period_constraint ⟨fun _ => [], []⟩ 0 10).2.clocks)
    ∧ (isErr (add_period_constraint (add_period_constraint ⟨fun _ => [], []⟩ 0 10).2 0 20).1 = true
       ∧ (add_period_constraint (add_period_constraint ⟨fun _ => [], []⟩ 0 10).2 0 20).2.clocks
           = (add_period_constraint ⟨fun _ => [], []⟩ 0 10).2.clocks) := by
  have h := add_period_constraint_spec ⟨fun _ => [], []⟩ 0 10 rfl
  exact ⟨h.1, h.2.1, h.2.2 20 (by decide)⟩

/-- C10: when `add_period_constraint` fails on a period conflict, the clock
map is left unchanged but the `keep` attribute has already been added to the
clock signal — the attribute side effect is not rolled back. -/
theorem add_period_constraint_keep_effect (st : BuildState) (clk : Nat) (p q : Rat)
    (hg : dictGet? clk st.clocks = some p) (hq : q ≠ p) :
    isErr (add_period_constraint st clk q).1 = true
    ∧ "keep" ∈ (add_period_constraint st clk q).2.attrs clk
    ∧ (add_period_constraint st clk q).2.clocks = st.clocks := by
  rw [add_period_constraint]
  simp only [hg]
  rw [if_pos hq]
  refine ⟨rfl, ?_, rfl⟩
  simp only [if_pos rfl]
  exact setAdd_mem_self "keep" (st.attrs clk)

/-- C10 witness: with clock `0` stored at period `10` and no attributes,
re-constraining to `20` fails, yet afterwards the clock's attribute set
contains `keep` while the clock map is unchanged. -/
theorem add_period_constraint_keep_effect_witness :
    isErr (add_period_constraint ⟨fun _ => [], [(0, 10)]⟩ 0 20).1 = true
    ∧ "keep" ∈ (add_period_constraint ⟨fun _ => [], [(0, 10)]⟩ 0 20).2.attrs 0
    ∧ (add_period_constraint ⟨fun _ => [], [(0, 10)]⟩ 0 20).2.clocks = [(0, 10)] :=
  add_period_constraint_keep_effect ⟨fun _ => [], [(0, 10)]⟩ 0 10 20 (by decide) (by decide)

/-! Section: Clock emitter -/

/-- C5: `_build_pre_pack` emits exactly one `ctx.addClock` line per
constrained clock, in the clock map's insertion order, carrying the resolved
signal name and the frequency `1000 / period`; in particular a `10` ns
period yields the frequency `100`. -/
theorem build_pre_pack_spec (numStr : Rat → String) (vns : Nat → String)
    (clocks : List (Nat × Rat)) :
    (build_pre_pack numStr vns clocks
      = strConcat (clocks.map fun cp =>
          "ctx.addClock(\"" ++ vns cp.1 ++ "\", " ++ numStr (1000 / cp.2) ++ ")\n"))
    ∧ ∀ clk : Nat,
      build_pre_pack numStr vns [(clk, 10)]
        = "ctx.addClock(\"" ++ vns clk ++ "\", " ++ numStr 100 ++ ")\n" := by
  constructor
  · rw [build_pre_pack, foldl_str_append, String.empty_append]
  · intro clk
    rw [build_pre_pack]
    simp only [List.foldl_cons, List.foldl_nil, String.empty_append]
    norm_num

/-! Section: Yosys source import -/

/-- C8: `_yosys_import_sources` emits one `read_<language>` directive per
source file in input order, each carrying a ` -I<path>` flag for every
include path; the language `systemverilog` is rewritten to `verilog -sv`
before emission and every other language is emitted verbatim. -/
theorem yosys_import_sources_spec (verilog_include_paths : List String)
    (sources : List (String × String × String)) :
    (yosys_import_sources verilog_include_paths sources
      = strIntercalate "\n" (sources.map fun s =>
          "read_" ++ effLang s.2.1
            ++ strConcat (verilog_include_paths.map fun path => " -I" ++ path)
            ++ " " ++ s.1))
    ∧ effLang "systemverilog" = "verilog -sv"
    ∧ ∀ l : String, l ≠ "systemverilog" → effLang l = l := by
  refine ⟨?_, rfl, ?_⟩
  · rw [yosys_import_sources]
    simp only [foldl_str_append, String.empty_append, foldl_list_append,
      List.nil_append]
  · intro l hl
    rw [effLang, if_neg hl]

/-- C8 witness: a `systemverilog` source is read via `read_verilog -sv`
with the include flag, and an ordinary language name is kept verbatim. -/
theorem yosys_import_sources_spec_witness :
    yosys_import_sources ["inc"] [("a.sv", "systemverilog", "work")]
      = "read_verilog -sv -Iinc a.sv"
    ∧ effLang "vhdl" = "vhdl" := by
  constructor
  · have h := (yosys_import_sources_spec ["inc"] [("a.sv", "systemverilog", "work")]).1
    rw [h]
    decide
  · exact (yosys_import_sources_spec [] []).2.2 "vhdl" (by decide)

/-! Section: Device string parsing lemmas -/

lemma splitOnChar_ne_nil (c : Char) : ∀ l : List Char, splitOnChar c l ≠ [] := by
  intro l
  cases l with
  | nil => simp [splitOnChar]
  | cons x xs =>
    rw [splitOnChar]
    rcases h : splitOnChar c xs with _ | ⟨y, ys⟩
    · simp
    · by_cases hx : x = c
      · simp [hx]
      · simp [hx]

lemma joinParts_splitOnChar (c : Char) : ∀ l : List Char,
    joinParts c (splitOnChar c l) = l := by
  intro l
  induction l with
  | nil => rfl
  | cons x xs ih =>
    rw [splitOnChar]
    rcases h : splitOnChar c xs with _ | ⟨y, ys⟩
    · exact absurd h (splitOnChar_ne_nil c xs)
    · rw [h] at ih
      show joinParts c (if x = c then [] :: y :: ys else (x :: y) :: ys) = x :: xs
      by_cases hx : x = c
      · rw [if_pos hx, joinParts, ih, hx, List.nil_append]
      · rw [if_neg hx]
        cases ys with
        | nil =>
          rw [joinParts] at ih ⊢
          rw [ih]
        | cons y' ys' =>
          rw [joinParts] at ih ⊢
          rw [List.cons_append, ih]

lemma lookup_mem {ν : Type} : ∀ (t : List (String × ν)) (k : String) (v : ν),
    List.lookup k t = some v → (k, v) ∈ t := by
  intro t
  induction t with
  | nil => intro k v h; simp [List.lookup] at h
  | cons kv rest ih =>
    intro k v h
    rcases kv with ⟨k', v'⟩
    rw [List.lookup] at h
    by_cases hk : k == k'
    · rw [hk] at h
      injection h with hv
      rw [eq_of_beq hk, hv]
      exact List.mem_cons_self _ _
    · have hk' : (k == k') = false := by simpa using hk
      rw [hk'] at h
      exact List.mem_cons_of_mem _ (ih k v h)

lemma all_valid_parse_ok :
    allValidTriples.all
      (fun t => parseOkAt (parse_device (t.1 ++ "-" ++ t.2.1 ++ "-" ++ t.2.2)) t) = true := by
  decide

lemma validTripleB_mem_allValidTriples (f a p : String)
    (h : validTripleB f a p = true) : (f, a, p) ∈ allValidTriples := by
  rw [validTripleB, Bool.and_eq_true] at h
  rcases h with ⟨hf, hrest⟩
  have hf' : f = "ice40" := by
    have : f ∈ (["ice40"] : List String) := by
      simpa using hf
    simpa using this
  rcases hl : List.lookup a packagesTable with _ | pkgs
  · rw [hl] at hrest; cases hrest
  · rw [hl] at hrest
    have hp : p ∈ pkgs := by
      simpa using hrest
    have hmem : (a, pkgs) ∈ packagesTable := lookup_mem packagesTable a pkgs hl
    rw [allValidTriples]
    refine List.mem_flatMap.mpr ⟨(a, pkgs), hmem, ?_⟩
    exact List.mem_map.mpr ⟨p, hp, by rw [hf']⟩

/-- C2: `parse_device` returns every valid `family-architecture-package`
triple unchanged, and conversely only succeeds on a string that is the
hyphen-joining of a valid triple — any wrong field count or unknown family,
architecture or package yields a `ValueError`. -/
theorem parse_device_spec :
    (∀ f a p : String, validTripleB f a p = true →
       parse_device (f ++ "-" ++ a ++ "-" ++ p) = .ok (f, a, p))
    ∧ (∀ (d f a p : String), parse_device d = .ok (f, a, p) →
       validTripleB f a p = true ∧ d = f ++ "-" ++ a ++ "-" ++ p) := by
  constructor
  · intro f a p h
    have hmem := validTripleB_mem_allValidTriples f a p h
    have hall := List.all_eq_true.mp all_valid_parse_ok (f, a, p) hmem
    rcases hr : parse_device (f ++ "-" ++ a ++ "-" ++ p) with e | t'
    · rw [parseOkAt.eq_def, hr] at hall
      simp at hall
    · rw [parseOkAt.eq_def, hr] at hall
      simp at hall
      rw [hall]
  · intro d f a p h
    simp only [parse_device] at h
    split at h
    · next x y z heq =>
      split at h
      · exact Except.noConfusion h
      · next hfam =>
        split at h
        · exact Except.noConfusion h
        · next pkgs hlook =>
          split at h
          · exact Except.noConfusion h
          · next hpkg =>
            injection h with ht
            cases ht
            have hfam' : (["ice40"] : List String).contains (String.mk x) = true := by
              cases hc : (["ice40"] : List String).contains (String.mk x)
              · exact absurd hc hfam
              · rfl
            have hpkg' : pkgs.contains (String.mk z) = true := by
              cases hc : pkgs.contains (String.mk z)
              · exact absurd hc hpkg
              · rfl
            constructor
            · rw [validTripleB, hlook, Bool.and_eq_true]
              exact ⟨hfam', hpkg'⟩
            · have hjoin := joinParts_splitOnChar '-' d.data
              rw [heq] at hjoin
              rw [joinParts, joinParts, joinParts] at hjoin
              apply String.ext
              rw [← hjoin]
              simp only [String.data_append,
                show ("-" : String).data = ['-'] from rfl,
                List.cons_append, List.nil_append, List.append_assoc]
    · exact Except.noConfusion h

/-- C2 witness: a valid device string parses to its triple, and a parsed
triple is valid and reconstructs its input. -/
theorem parse_device_spec_witness :
    parse_device ("ice40" ++ "-" ++ "up5k" ++ "-" ++ "sg48") = .ok ("ice40", "up5k", "sg48")
    ∧ (validTripleB "ice40" "hx8k" "ct256" = true
       ∧ "ice40-hx8k-ct256" = "ice40" ++ "-" ++ "hx8k" ++ "-" ++ "ct256") :=
  ⟨parse_device_spec.1 "ice40" "up5k" "sg48" (by decide),
   parse_device_spec.2 "ice40-hx8k-ct256" "ice40" "hx8k" "ct256" rfl⟩

/-! Section: Format-string and substring lemmas -/

lemma formatLine_eq (env : FormatEnv) (l : List Item) :
    formatLine env l = strConcat (l.map (itemVal env)) := by
  rw [formatLine, foldl_str_append, String.empty_append]

lemma formatLine_append (env : FormatEnv) (l₁ l₂ : List Item) :
    formatLine env (l₁ ++ l₂) = formatLine env l₁ ++ formatLine env l₂ := by
  simp [formatLine_eq, strConcat_append]

lemma formatLine_cons (env : FormatEnv) (it : Item) (l : List Item) :
    formatLine env (it :: l) = itemVal env it ++ formatLine env l := by
  rw [formatLine_eq, List.map_cons, strConcat_cons, ← formatLine_eq]

lemma build_script_contents (osk : OSKind) (rev : String) (tmpl : List (List Item))
    (bn arch pkg : String) (ts il : Bool) (seed : Int) :
    build_script osk rev tmpl bn arch pkg ts il seed
      = ("build_" ++ bn ++ scriptExtOf osk,
         scriptHeaderOf osk rev
           ++ strConcat (tmpl.map fun l =>
                formatLine (scriptSubst osk bn arch pkg ts il seed) l
                  ++ (failStmtOf osk ++ "\n"))) := by
  simp only [build_script, Prod.mk.injEq]
  refine ⟨trivial, ?_⟩
  rw [foldl_str_append]
  refine congrArg (fun x => scriptHeaderOf osk rev ++ strConcat x)
    (List.map_congr_left ?_)
  intro l _
  rw [formatLine_append]
  rfl

lemma isPrefixList_self_append : ∀ p r : List Char, isPrefixList p (p ++ r) = true := by
  intro p
  induction p with
  | nil => intro r; rfl
  | cons a as ih => intro r; simp [isPrefixList, ih]

lemma isPrefixList_mono : ∀ (p l r : List Char),
    isPrefixList p l = true → isPrefixList p (l ++ r) = true := by
  intro p
  induction p with
  | nil => intro l r _; rfl
  | cons a as ih =>
    intro l r h
    cases l with
    | nil => simp [isPrefixList] at h
    | cons b bs =>
      rw [List.cons_append]
      rw [isPrefixList, Bool.and_eq_true] at h ⊢
      exact ⟨h.1, ih bs r h.2⟩

lemma containsSub_of_head : ∀ (p l : List Char),
    isPrefixList p l = true → containsSub p l = true := by
  intro p l h
  cases l with
  | nil =>
    cases p with
    | nil => rfl
    | cons a as => simp [isPrefixList] at h
  | cons c rest =>
    rw [containsSub, h, Bool.true_or]

lemma containsSub_append_r (p : List Char) : ∀ (l₁ l₂ : List Char),
    containsSub p l₂ = true → containsSub p (l₁ ++ l₂) = true := by
  intro l₁ l₂ h
  induction l₁ with
  | nil => simpa using h
  | cons c cs ih =>
    rw [List.cons_append, containsSub, ih, Bool.or_true]

lemma containsSub_append_l (p : List Char) : ∀ (l₁ l₂ : List Char),
    containsSub p l₁ = true → containsSub p (l₁ ++ l₂) = true := by
  intro l₁ l₂
  induction l₁ with
  | nil =>
    intro h
    have hp : p = [] := by
      cases p with
      | nil => rfl
      | cons a as => simp [containsSub, List.isEmpty] at h
    subst hp
    cases l₂ with
    | nil => rfl
    | cons c cs =>
      rw [List.nil_append, containsSub,
        show isPrefixList [] (c :: cs) = true from rfl, Bool.true_or]
  | cons c cs ih =>
    intro h
    rw [containsSub] at h
    rw [List.cons_append, containsSub]
    rcases (Bool.or_eq_true _ _).mp h with hpre | hrest
    · rw [← List.cons_append, isPrefixList_mono _ _ _ hpre, Bool.true_or]
    · rw [ih hrest, Bool.or_true]

lemma strContains_append_l (a b pat : String) (h : strContains a pat = true) :
    strContains (a ++ b) pat = true := by
  rw [strContains, String.data_append]
  exact containsSub_append_l _ _ _ h

lemma strContains_append_r (a b pat : String) (h : strContains b pat = true) :
    strContains (a ++ b) pat = true := by
  rw [strContains, String.data_append]
  exact containsSub_append_r _ _ _ h

lemma strContains_self (p : String) : strContains p p = true := by
  rw [strContains]
  have h := isPrefixList_self_append p.data []
  rw [List.append_nil] at h
  exact containsSub_of_head _ _ h

lemma strContains_concat_mem (pat s : String) : ∀ l : List String, s ∈ l →
    strContains s pat = true → strContains (strConcat l) pat = true := by
  intro l
  induction l with
  | nil => intro hs _; simp at hs
  | cons x xs ih =>
    intro hs h
    rw [strConcat_cons]
    rcases List.mem_cons.mp hs with heq | hmem
    · subst heq
      exact strContains_append_l _ _ _ h
    · exact strContains_append_r _ _ _ (ih hmem h)

lemma strContains_formatLine_field (env : FormatEnv) (l : List Item) (f : TField)
    (h : Item.field f ∈ l) :
    strContains (formatLine env l) (fieldVal env f) = true := by
  obtain ⟨s, t, rfl⟩ := List.append_of_mem h
  rw [formatLine_append]
  apply strContains_append_r
  rw [formatLine_cons]
  apply strContains_append_l
  exact strContains_self _

lemma strContains_script_field (osk : OSKind) (rev : String) (tmpl : List (List Item))
    (bn arch pkg : String) (ts il : Bool) (seed : Int) (f : TField)
    (h : ∃ l ∈ tmpl, Item.field f ∈ l) :
    strContains (build_script osk rev tmpl bn arch pkg ts il seed).2
      (fieldVal (scriptSubst osk bn arch pkg ts il seed) f) = true := by
  obtain ⟨l, hl, hf⟩ := h
  rw [build_script_contents]
  apply strContains_append_r
  refine strContains_concat_mem _ _ _ (List.mem_map_of_mem _ hl) ?_
  apply strContains_append_l
  exact strContains_formatLine_field _ _ _ hf

/-- C7: the OS branch of `_build_script` is selected once: POSIX scripts get
the `set -e` header prepended once at the top and an empty per-line failure
suffix, Windows scripts get `\x20|| exit /b` appended to every template line
and no errexit header; the content is paired with the returned filename
`build_<build_name>` plus `.sh` or `.bat`. -/
theorem build_script_os_branches (rev : String) (tmpl : List (List Item))
    (bn arch pkg : String) (ts il : Bool) (seed : Int) :
    (build_script .posix rev tmpl bn arch pkg ts il seed
      = ("build_" ++ bn ++ ".sh",
         "# Autogenerated by LiteX / git: " ++ rev ++ "\nset -e\n"
           ++ strConcat (tmpl.map fun l =>
                formatLine (scriptSubst .posix bn arch pkg ts il seed) l ++ "\n")))
    ∧ (build_script .windows rev tmpl bn arch pkg ts il seed
      = ("build_" ++ bn ++ ".bat",
         "@echo off\nrem Autogenerated by LiteX / git: " ++ rev ++ "\n\n"
           ++ strConcat (tmpl.map fun l =>
                formatLine (scriptSubst .windows bn arch pkg ts il seed) l
                  ++ " || exit /b\n"))) := by
  constructor
  · rw [build_script_contents]
    have hmap : ∀ l ∈ tmpl,
        formatLine (scriptSubst .posix bn arch pkg ts il seed) l
            ++ (failStmtOf .posix ++ "\n")
          = formatLine (scriptSubst .posix bn arch pkg ts il seed) l ++ "\n" := by
      intro l _
      rw [show failStmtOf OSKind.posix = "" from rfl, String.empty_append]
    rw [List.map_congr_left hmap]
    rfl
  · rw [build_script_contents]
    have hmap : ∀ l ∈ tmpl,
        formatLine (scriptSubst .windows bn arch pkg ts il seed) l
            ++ (failStmtOf .windows ++ "\n")
          = formatLine (scriptSubst .windows bn arch pkg ts il seed) l
              ++ " || exit /b\n" := by
      intro l _
      rw [show (failStmtOf OSKind.windows ++ "\n" : String) = " || exit /b\n" from by decide]
    rw [List.map_congr_left hmap]
    rfl

lemma isPrefixList_parts : ∀ (p l : List Char),
    isPrefixList p l = true → ∃ v, l = p ++ v := by
  intro p
  induction p with
  | nil => intro l _; exact ⟨l, rfl⟩
  | cons a as ih =>
    intro l h
    cases l with
    | nil => simp [isPrefixList] at h
    | cons b bs =>
      rw [isPrefixList, Bool.and_eq_true] at h
      obtain ⟨v, hv⟩ := ih bs h.2
      exact ⟨v, by rw [of_decide_eq_true h.1, hv]; rfl⟩

lemma containsSub_parts (p u v : List Char) :
    containsSub p (u ++ (p ++ v)) = true :=
  containsSub_append_r p u (p ++ v)
    (containsSub_of_head p (p ++ v) (isPrefixList_self_append p v))

lemma exists_parts_of_containsSub : ∀ (p l : List Char),
    containsSub p l = true → ∃ u v, l = u ++ (p ++ v) := by
  intro p l
  induction l with
  | nil =>
    intro h
    rw [containsSub] at h
    cases p with
    | nil => exact ⟨[], [], rfl⟩
    | cons a as => simp [List.isEmpty] at h
  | cons c rest ih =>
    intro h
    rw [containsSub] at h
    rcases (Bool.or_eq_true _ _).mp h with hpre | htail
    · obtain ⟨v, hv⟩ := isPrefixList_parts p (c :: rest) hpre
      exact ⟨[], v, by rw [hv]; rfl⟩
    · obtain ⟨u, v, huv⟩ := ih htail
      exact ⟨c :: u, v, by rw [huv]; rfl⟩

lemma strContains_eq_false_of_sub (s p : String) (q : List Char)
    (hq : containsSub q p.data = true)
    (hs : containsSub q s.data = false) : strContains s p = false := by
  cases hcon : strContains s p with
  | false => rfl
  | true =>
    rw [strContains] at hcon
    obtain ⟨u, v, huv⟩ := exists_parts_of_containsSub p.data s.data hcon
    obtain ⟨u', v', huv'⟩ := exists_parts_of_containsSub q p.data hq
    have hrearr : s.data = (u ++ u') ++ (q ++ (v' ++ v)) := by
      rw [huv, huv']
      simp [List.append_assoc]
    have hc2 := containsSub_parts q (u ++ u') (v' ++ v)
    rw [← hrearr] at hc2
    rw [hc2] at hs
    cases hs

lemma containsSub_one_append (c : Char) : ∀ x y : List Char,
    containsSub [c] (x ++ y) = (containsSub [c] x || containsSub [c] y) := by
  intro x y
  induction x with
  | nil => simp [containsSub, List.isEmpty]
  | cons d ds ih =>
    rw [List.cons_append, containsSub, ih, containsSub]
    have h1 : isPrefixList [c] (d :: (ds ++ y)) = isPrefixList [c] (d :: ds) := rfl
    rw [h1, Bool.or_assoc]

lemma charIn_append (c : Char) (a b : String) :
    charIn c (a ++ b) = (charIn c a || charIn c b) := by
  rw [charIn, charIn, charIn, String.data_append, containsSub_one_append]

lemma strContains_eq_false_of_charIn (s p : String) (c : Char)
    (hq : charIn c p = true) (hs : charIn c s = false) : strContains s p = false :=
  strContains_eq_false_of_sub s p [c] hq hs

/-- C6 counterexample: the frozen claim's absence direction fails — with
`timingstrict = true` the generated script can still contain
`--timing-allow-fail`, here because the build name carries the flag text. -/
theorem build_script_flags_counterexample :
    strContains
      (build_script .posix "r" build_template "top --timing-allow-fail" "up5k" "sg48"
        true false 1).2
      "--timing-allow-fail" = true := by
  decide

set_option maxRecDepth 20000 in
/-- C6 (amended): for every build-script generation call the
`--timing-allow-fail` flag is present when `timingstrict` is false and the
`--ignore-loops` flag is present when `ignoreloops` is true; when a flag is
disabled the generator substitutes the empty string at its slot, so the
script equals the corresponding enabled script with exactly the flag text
deleted, and the disabled flag can only appear if the other substituted
values carry it — with `timingstrict` true the timing flag is absent for
every call whose build name, architecture, package, revision and rendered
seed avoid the character `w` (no template literal contains it); with
`ignoreloops` false the loops flag is absent on representative inputs over
both OS branches. -/
theorem build_script_flags_amended :
    (∀ (osk : OSKind) (rev bn arch pkg : String) (il : Bool) (seed : Int),
      strContains (build_script osk rev build_template bn arch pkg false il seed).2
        "--timing-allow-fail" = true)
    ∧ (∀ (osk : OSKind) (rev bn arch pkg : String) (ts : Bool) (seed : Int),
      strContains (build_script osk rev build_template bn arch pkg ts true seed).2
        "--ignore-loops" = true)
    ∧ (∀ (osk : OSKind) (rev bn arch pkg : String) (il : Bool) (seed : Int),
      ∃ A B : String,
        (build_script osk rev build_template bn arch pkg false il seed).2
          = A ++ ("--timing-allow-fail" ++ B)
        ∧ (build_script osk rev build_template bn arch pkg true il seed).2
          = A ++ B)
    ∧ (∀ (osk : OSKind) (rev bn arch pkg : String) (ts : Bool) (seed : Int),
      ∃ A B : String,
        (build_script osk rev build_template bn arch pkg ts true seed).2
          = A ++ ("--ignore-loops" ++ B)
        ∧ (build_script osk rev build_template bn arch pkg ts false seed).2
          = A ++ B)
    ∧ (∀ (osk : OSKind) (rev bn arch pkg : String) (il : Bool) (seed : Int),
      charIn 'w' rev = false → charIn 'w' bn = false → charIn 'w' arch = false →
      charIn 'w' pkg = false → charIn 'w' (toString seed) = false →
      strContains (build_script osk rev build_template bn arch pkg true il seed).2
        "--timing-allow-fail" = false)
    ∧ (∀ (osk : OSKind) (ts : Bool),
      strContains (build_script osk "0" build_template "top" "up5k" "sg48" ts false 1).2
        "--ignore-loops" = false) := by
  refine ⟨?_, ?_, ?_, ?_, ?_, ?_⟩
  · intro osk rev bn arch pkg il seed
    have h := strContains_script_field osk rev build_template bn arch pkg false il seed
      .timefailarg (by decide)
    have hv : fieldVal (scriptSubst osk bn arch pkg false il seed) .timefailarg
        = "--timing-allow-fail" := rfl
    rw [hv] at h
    exact h
  · intro osk rev bn arch pkg ts seed
    have h := strContains_script_field osk rev build_template bn arch pkg ts true seed
      .ignoreloops (by decide)
    have hv : fieldVal (scriptSubst osk bn arch pkg ts true seed) .ignoreloops
        = "--ignore-loops" := rfl
    rw [hv] at h
    exact h
  · intro osk rev bn arch pkg il seed
    refine ⟨scriptHeaderOf osk rev ++ "yosys -l " ++ bn ++ ".rpt " ++ bn ++ ".ys"
        ++ failStmtOf osk ++ "\n" ++ "nextpnr-ice40 --json " ++ bn ++ ".json --pcf "
        ++ bn ++ ".pcf --asc " ++ bn ++ ".txt     --pre-pack " ++ bn
        ++ "_pre_pack.py --" ++ arch ++ " --package " ++ pkg ++ " ",
      " " ++ (if il then "--ignore-loops" else "") ++ " --seed " ++ toString seed
        ++ failStmtOf osk ++ "\n" ++ "icepack -s " ++ bn ++ ".txt " ++ bn ++ ".bin"
        ++ failStmtOf osk ++ "\n", ?_, ?_⟩
    · rw [build_script_contents]
      simp [build_template, formatLine_eq, itemVal, fieldVal, scriptSubst, strConcat,
        String.append_assoc, String.append_empty, String.empty_append,
        -String.reduceAppend]
    · rw [build_script_contents]
      simp [build_template, formatLine_eq, itemVal, fieldVal, scriptSubst, strConcat,
        String.append_assoc, String.append_empty, String.empty_append,
        -String.reduceAppend]
  · intro osk rev bn arch pkg ts seed
    refine ⟨scriptHeaderOf osk rev ++ "yosys -l " ++ bn ++ ".rpt " ++ bn ++ ".ys"
        ++ failStmtOf osk ++ "\n" ++ "nextpnr-ice40 --json " ++ bn ++ ".json --pcf "
        ++ bn ++ ".pcf --asc " ++ bn ++ ".txt     --pre-pack " ++ bn
        ++ "_pre_pack.py --" ++ arch ++ " --package " ++ pkg ++ " "
        ++ (if ts then "" else "--timing-allow-fail") ++ " ",
      " --seed " ++ toString seed
        ++ failStmtOf osk ++ "\n" ++ "icepack -s " ++ bn ++ ".txt " ++ bn ++ ".bin"
        ++ failStmtOf osk ++ "\n", ?_, ?_⟩
    · rw [build_script_contents]
      simp [build_template, formatLine_eq, itemVal, fieldVal, scriptSubst, strConcat,
        String.append_assoc, String.append_empty, String.empty_append,
        -String.reduceAppend]
    · rw [build_script_contents]
      simp [build_template, formatLine_eq, itemVal, fieldVal, scriptSubst, strConcat,
        String.append_assoc, String.append_empty, String.empty_append,
        -String.reduceAppend]
  · intro osk rev bn arch pkg il seed hrev hbn harch hpkg hseed
    refine strContains_eq_false_of_charIn _ _ 'w' (by decide) ?_
    rw [build_script_contents]
    cases osk <;> cases il <;>
      simp [scriptHeaderOf, failStmtOf, scriptSubst, fieldVal, itemVal, formatLine_eq,
        build_template, strConcat, charIn_append,
        hrev, hbn, harch, hpkg, hseed] <;>
      decide
  · intro osk ts
    cases osk <;> cases ts <;> decide

/-- C6 witness: the amended absence guarantee at concrete inputs — none of
the parameter strings contain `w`, and the `timingstrict = true` script
indeed lacks the timing flag. -/
theorem build_script_flags_amended_witness :
    strContains (build_script .posix "9f" build_template "top" "up5k" "sg48" true false 1).2
      "--timing-allow-fail" = false :=
  build_script_flags_amended.2.2.2.2.1 .posix "9f" "top" "up5k" "sg48" false 1
    (by decide) (by decide) (by decide) (by decide) (by decide)

/-! Section: Working-directory discipline of `build` -/

/-- C1 counterexample: with an invalid device string, `build` raises and the
process is left in the build directory — the working-directory change is
not reverted before the error propagates. -/
theorem build_cwd_counterexample :
    isErr (build c1Env "/prior").1 = true
    ∧ ¬ (build c1Env "/prior").2 = "/prior"
    ∧ (build c1Env "/prior").2 = "build" := by
  decide

/-- C1 (amended): the working-directory change made at the start of `build`
is reverted only on the success path; whenever `build` raises (pin-constraint
failure, device-validation failure, toolchain-unavailable failure, or
external-process failure), the error propagates with the working directory
still set to the build directory. -/
theorem build_cwd_amended (env : BuildEnv) (s : String) :
    (isErr (build env s).1 = false → (build env s).2 = s)
    ∧ (isErr (build env s).1 = true → (build env s).2 = env.build_dir) := by
  simp only [build, stBind, stGetCwd, stChdir, stLift, stPure]
  rcases hpcf : build_pcf env.named_sc env.named_pc with e | r
  · simp [hpcf, Except.map, isErr]
  · simp only [hpcf, Except.map]
    rcases hdev : parse_device env.device with e | fap
    · simp [hdev, isErr]
    · simp only [hdev]
      rcases hrun : env.run with _ | _
      · simp [isErr, stPure]
      · rcases hrs : run_script env.yosysFound env.nextpnrFound env.scriptExit with e | u
        · simp [hrs, isErr, stLift]
        · simp [hrs, isErr, stLift]

/-- C1 witness: a successful `run=False` build restores the prior working
directory. -/
theorem build_cwd_amended_witness : (build c1EnvOk "/prior").2 = "/prior" :=
  (build_cwd_amended c1EnvOk "/prior").1 (by decide)

end IceStorm
